import Mathlib

/-!
Shallow embedding of the blockquotes front-end script (the canonical
revision in src/unnamed/part_000): quote loading and caching, the
typewriter display state machine, the bookmark collection with its
cyclic cursor, and the preload slot.  Asynchronous host effects
(fetch, localStorage, DOM, timers) are made explicit: the awaited
fetch outcome, the stored cache blobs and the scheduled next quote
are passed in as parameters, and DOM writes become fields of an
explicit state record.
-/

namespace Blockquotes

/-- config.cacheExpiry: 24 hours in milliseconds. -/
def cacheExpiry : Int := 24 * 60 * 60 * 1000

/-- config.pauseDuration: delay before the next quote, in milliseconds. -/
def pauseDuration : Int := 3000

/-- JavaScript String.prototype.trim, modelled over the character
list: strip leading and trailing whitespace. -/
def jsTrim (s : String) : String :=
  ⟨((s.data.dropWhile Char.isWhitespace).reverse.dropWhile Char.isWhitespace).reverse⟩

/-- JavaScript s.slice(0, n), modelled over the character list. -/
def jsTake (s : String) (n : Nat) : String :=
  ⟨s.data.take n⟩

/-- A quote object whose text and author fields are both strings. -/
structure Quote where
  text : String
  author : String
deriving DecidableEq, Repr

/-- isValidQuote on a string-field quote object: both fields non-empty
after trimming. -/
def isValidQuote (q : Quote) : Bool :=
  jsTrim q.text != "" && jsTrim q.author != ""

/-- One element of a parsed JSON array: either an object with string
text and author fields, or anything else (non-object, missing or
non-string fields), which isValidQuote always rejects. -/
inductive JElem where
  | strQuote (q : Quote)
  | other
deriving DecidableEq, Repr

/-- isValidQuote on a parsed JSON array element. -/
def isValidQuoteE : JElem → Bool
  | .strQuote q => isValidQuote q
  | .other => false

/-- A parsed JSON value: an array of elements, or a non-array value. -/
inductive JVal where
  | arr (items : List JElem)
  | notArr
deriving DecidableEq, Repr

/-- A stored localStorage blob: either a string JSON.parse rejects
(throws on), or one it parses to a value. -/
inductive Blob where
  | invalid
  | val (v : JVal)
deriving DecidableEq, Repr

/-- Outcome of the awaited fetch of data/bitcoin_quotes.json:
rejection (network error), a non-ok response, a body whose JSON
parse rejects, or a parsed body. -/
inductive FetchOutcome where
  | networkError
  | notOk
  | badJson
  | ok (v : JVal)
deriving DecidableEq, Repr

/-- Environment of one loadQuotes invocation: the two localStorage
entries (present non-empty string or not), the current time, and what
the single fetch would yield if performed. -/
structure LoadEnv where
  cachedData : Option Blob
  cachedTimestamp : Option Int
  now : Int
  fetch : FetchOutcome
deriving DecidableEq, Repr

/-- Observable outcome of one loadQuotes invocation: whether an
exception escaped to the caller, the resolved value when none did,
whether the error surface was activated, the cache entries written
(value and timestamp), and whether the fetch was performed. -/
structure LoadOutput where
  thrown : Bool
  result : Option JVal
  errorShown : Bool
  newCache : Option (JVal × Int)
  fetched : Bool
deriving DecidableEq, Repr

/-- The catch branch of loadQuotes: error surface activated, resolves
to the empty array, no cache write; reached only on the fetch path. -/
def loadFailure : LoadOutput :=
  { thrown := false, result := some (.arr []), errorShown := true,
    newCache := none, fetched := true }

/-- The try block of loadQuotes: fetch, check response.ok, parse the
body, validate it is an array of valid quotes, then cache and return
it; any failure falls into the catch branch. -/
def fetchPath (env : LoadEnv) : LoadOutput :=
  match env.fetch with
  | .networkError => loadFailure
  | .notOk => loadFailure
  | .badJson => loadFailure
  | .ok v =>
    match v with
    | .notArr => loadFailure
    | .arr items =>
      if items.all isValidQuoteE then
        { thrown := false, result := some (.arr items), errorShown := false,
          newCache := some (.arr items, env.now), fetched := true }
      else loadFailure

/-- loadQuotes: when both cache entries are present and the timestamp
is younger than cacheExpiry, JSON.parse the cached blob outside the
try block and return it; otherwise run the fetch path. -/
def loadQuotes (env : LoadEnv) : LoadOutput :=
  match env.cachedData, env.cachedTimestamp with
  | some blob, some ts =>
    if env.now - ts < cacheExpiry then
      match blob with
      | .invalid =>
        { thrown := true, result := none, errorShown := false,
          newCache := none, fetched := false }
      | .val v =>
        { thrown := false, result := some v, errorShown := false,
          newCache := none, fetched := false }
    else fetchPath env
  | _, _ => fetchPath env

/-- The cache-hit test of loadQuotes: both entries present and the
timestamp younger than cacheExpiry. -/
def cacheHit (env : LoadEnv) : Bool :=
  match env.cachedData, env.cachedTimestamp with
  | some _, some ts => decide (env.now - ts < cacheExpiry)
  | _, _ => false

/-- A cache hit whose stored blob JSON.parse rejects. -/
def freshInvalid (env : LoadEnv) : Bool :=
  match env.cachedData, env.cachedTimestamp with
  | some .invalid, some ts => decide (env.now - ts < cacheExpiry)
  | _, _ => false

/-- Every fetch outcome the try block of loadQuotes turns into the
catch branch: rejection, non-ok, unparseable body, non-array body, or
an array with an invalid element. -/
def fetchFails (f : FetchOutcome) : Bool :=
  match f with
  | .ok (.arr items) => !(items.all isValidQuoteE)
  | .ok .notArr => true
  | _ => true

example : (loadQuotes ⟨some .invalid, some 0, 0, .networkError⟩).thrown = true := by decide

example : isValidQuote ⟨"Hi", "A"⟩ = true := by decide

example : isValidQuote ⟨"  ", "A"⟩ = false := by decide

/-- QuoteUtils.getQuoteText: the quote text trimmed and wrapped in
quotation marks, with a fallback when the trimmed text is empty. -/
def getQuoteText (q : Quote) : String :=
  let t := jsTrim q.text
  "\"" ++ (if t = "" then "No quote available" else t) ++ "\""

/-- isValidQuote applied to a possibly null quote reference: a null
reference is falsy and rejected. -/
def isValidQuoteO : Option Quote → Bool
  | none => false
  | some q => isValidQuote q

/-- The mutable state the typing code touches, together with the two
DOM surfaces it writes.  currentQuote, currentIndex, isTyping,
isPaused, isProcessing are the global state fields of the script;
quoteText, authorHTML and finishImmediately are the variables of the
active displayQuote closure; container is the innerHTML of the quote
container; errorShown is the error surface; requestedNext records
that setRandomQuote was invoked asynchronously (its resolution left
to the scheduler). -/
structure AppState where
  currentQuote : Option Quote
  quoteText : String
  authorHTML : String
  finishImmediately : Bool
  currentIndex : Nat
  isTyping : Bool
  isPaused : Bool
  isProcessing : Bool
  container : String
  errorShown : Bool
  requestedNext : Bool
deriving DecidableEq, Repr

/-- The innerHTML written while typing: the revealed text in a
highlighted span. -/
def renderTyped (typed : String) : String :=
  "<span class=\"text-selected\">" ++ typed ++ "</span>"

/-- The innerHTML written at completion: the full quote text followed
by the author span. -/
def renderFull (quoteText authorHTML : String) : String :=
  "<span class=\"text-selected\">" ++ quoteText ++ "</span><span class=\"author\">> " ++ authorHTML ++ "</span>"

/-- One invocation of the typeQuote closure.  The adaptive speed from
calculateTypingSpeed is clamped to at least 20 ms, so the computed
typingSpeed is 0 exactly when config.performanceMode holds; the
perfMode parameter carries that flag.  The three branches: forced
completion (finishImmediately or paused) renders the full text and
sets currentIndex to the text length, isTyping false, isPaused true;
the step branch reveals one more character and schedules the next
invocation; the completion branch renders the full text with the
author and schedules the post-completion callback. -/
def typeQuoteStep (perfMode : Bool) (s : AppState) : AppState :=
  let fin := s.finishImmediately || perfMode
  if fin || s.isPaused then
    { s with finishImmediately := fin,
             container := renderFull s.quoteText s.authorHTML,
             currentIndex := s.quoteText.length,
             isTyping := false,
             isPaused := true }
  else if s.currentIndex < s.quoteText.length then
    { s with finishImmediately := fin,
             container := renderTyped (jsTake s.quoteText (s.currentIndex + 1)),
             currentIndex := s.currentIndex + 1 }
  else
    { s with finishImmediately := fin,
             container := renderFull s.quoteText s.authorHTML,
             isTyping := false }

/-- displayQuote: reject an invalid quote by requesting a replacement
via setRandomQuote; otherwise install the new session (currentQuote,
revealed index, isTyping) with the preformatted author markup when
given (else format the author, via the fa parameter standing for
PerformanceUtils.formatAuthor), and run the first typeQuote
invocation synchronously. -/
def displayQuote (perfMode : Bool) (fa : String → String) (q : Option Quote)
    (startIndex : Nat) (finishImmediately : Bool)
    (preformattedAuthor : Option String) (s : AppState) : AppState :=
  match q with
  | none => { s with requestedNext := true }
  | some q =>
    if isValidQuote q then
      typeQuoteStep perfMode
        { s with currentQuote := some q,
                 quoteText := getQuoteText q,
                 authorHTML := preformattedAuthor.getD (fa q.author),
                 currentIndex := startIndex,
                 isTyping := true,
                 finishImmediately := finishImmediately }
    else { s with requestedNext := true }

/-- n further timer-scheduled invocations of the typeQuote closure. -/
def runTyping (perfMode : Bool) : Nat → AppState → AppState
  | 0, s => s
  | n + 1, s => typeQuoteStep perfMode (runTyping perfMode n s)

/-- setRandomQuote, with the quote that the awaited getNextQuote call
resolves to (and its author markup) passed in as the next parameter:
a no-op while paused, the empty-collection error path when getNextQuote
returns null, otherwise a displayQuote of the resolved quote from
index 0. -/
def setRandomQuote (perfMode : Bool) (fa : String → String)
    (next : Option (Quote × String)) (s : AppState) : AppState :=
  if s.isPaused then s
  else
    match next with
    | none => { s with container := "No quotes available", errorShown := true }
    | some (q, aHTML) => displayQuote perfMode fa (some q) 0 false (some aHTML) s

/-- handleClick: ignored while the re-entrancy lock is held; when
typing and unpaused, clear the pending timer and force-finish the
current quote from its current index; otherwise toggle isPaused, and
on the transition to unpaused clear the container and request a new
random quote. -/
def handleClick (perfMode : Bool) (fa : String → String)
    (next : Option (Quote × String)) (s : AppState) : AppState :=
  if s.isProcessing then s
  else
    let s1 := { s with isProcessing := true }
    if s1.isTyping && !s1.isPaused then
      displayQuote perfMode fa s1.currentQuote s1.currentIndex true none s1
    else
      let s2 := { s1 with isPaused := !s1.isPaused }
      if !s2.isPaused then
        setRandomQuote perfMode fa next { s2 with container := "" }
      else s2

/-- The post-completion callback scheduled after pauseDuration: if
still unpaused, clear the container and request the next quote. -/
def postCompletionTick (perfMode : Bool) (fa : String → String)
    (next : Option (Quote × String)) (s : AppState) : AppState :=
  if !s.isPaused then
    setRandomQuote perfMode fa next { s with container := "" }
  else s

/-- The deferred release of the re-entrancy lock, 100 ms after a
handled event. -/
def processingReset (s : AppState) : AppState :=
  { s with isProcessing := false }

/-- A stored bookmark: the text and author of the bookmarked quote
plus the bookmarking timestamp. -/
structure BQuote where
  text : String
  author : String
  bookmarkedAt : Int
deriving DecidableEq, Repr

/-- The matching predicate used by toggleBookmark and
isQuoteBookmarked: same text and same author. -/
def bmMatches (q : Quote) (b : BQuote) : Bool :=
  b.text == q.text && b.author == q.author

/-- isQuoteBookmarked: some stored bookmark has the same text and
author as the given quote. -/
def isQuoteBookmarked (bm : List BQuote) (q : Quote) : Bool :=
  bm.any (bmMatches q)

/-- toggleBookmark on the currently displayed quote q at time now:
when bookmarked, remove every matching entry and clamp the cursor to
the last position when it fell out of range (Math.max(0, length - 1)
coincides with truncated subtraction on Nat); when not bookmarked,
append a new entry.  Returns the new collection and cursor. -/
def toggleBookmark (q : Quote) (now : Int) (bm : List BQuote) (cursor : Nat) :
    List BQuote × Nat :=
  if isQuoteBookmarked bm q then
    let bm2 := bm.filter (fun b => !(bmMatches q b))
    let cursor2 := if cursor ≥ bm2.length then bm2.length - 1 else cursor
    (bm2, cursor2)
  else
    (bm ++ [⟨q.text, q.author, now⟩], cursor)

/-- The membership view of a bookmark collection the idempotence
claim speaks about: whether some entry carries the given text and
author pair. -/
def hasPair (bm : List BQuote) (t a : String) : Bool :=
  bm.any fun b => b.text == t && b.author == a

/-- Result of one bookmark-navigation call: the (unchanged)
collection, the new cursor, the bookmark handed to
displayQuoteWithTransition (none when the collection is empty or the
index is out of range, where the array access yields undefined), and
the announced message. -/
structure NavResult where
  bookmarks : List BQuote
  cursor : Nat
  displayed : Option BQuote
  announced : String
deriving DecidableEq, Repr

/-- viewNextBookmarkedQuote: notice on an empty collection; otherwise
read the bookmark at the cursor, then advance the cursor modulo the
length, display the bookmark read, and announce the position. -/
def viewNextBookmarkedQuote (bm : List BQuote) (cursor : Nat) : NavResult :=
  if bm.length = 0 then
    ⟨bm, cursor, none,
     "No bookmarked quotes yet. Press B to bookmark the current quote."⟩
  else
    let bookmarkedQuote := bm[cursor]?
    let cursor2 := (cursor + 1) % bm.length
    let total := bm.length
    let pos := if cursor2 = 0 then total else cursor2
    ⟨bm, cursor2, bookmarkedQuote,
     "Viewing bookmark " ++ toString pos ++ " of " ++ toString total⟩

/-- viewPreviousBookmarkedQuote: notice on an empty collection;
otherwise retreat the cursor modulo the length first, then read and
display the bookmark at the retreated cursor.  The source computes
(cursor - 1 + length) % length on integers; with cursor a
non-negative in-range value this equals (cursor + length - 1) %
length, the Nat form used here. -/
def viewPreviousBookmarkedQuote (bm : List BQuote) (cursor : Nat) : NavResult :=
  if bm.length = 0 then
    ⟨bm, cursor, none,
     "No bookmarked quotes yet. Swipe down to bookmark quotes."⟩
  else
    let cursor2 := (cursor + bm.length - 1) % bm.length
    let bookmarkedQuote := bm[cursor2]?
    ⟨bm, cursor2, bookmarkedQuote,
     "Viewing bookmark " ++ toString (cursor2 + 1) ++ " of " ++ toString bm.length⟩

/-- Cursor evolution under repeated viewNextBookmarkedQuote calls,
threading the collection and cursor through k calls. -/
def cycleNextIter : Nat → List BQuote × Nat → List BQuote × Nat
  | 0, p => p
  | k + 1, (bm, c) =>
    let r := viewNextBookmarkedQuote bm c
    cycleNextIter k (r.bookmarks, r.cursor)

/-- The do-while selection loop of preloadNextQuote, run with an
explicit source of random indices (rand k models the k-th
Math.floor(Math.random() * length) draw, reduced modulo the length)
and explicit fuel standing for the number of iterations the unbounded
source loop is observed for; none means the loop has not exited
within the given fuel.  The loop repeats while a current quote
exists, the drawn quote shares its text, and more than one valid
quote exists. -/
def pickLoop (validQuotes : List Quote) (current : Option Quote)
    (rand : Nat → Nat) : Nat → Nat → Option Quote
  | 0, _ => none
  | fuel + 1, k =>
    let randomQuote := validQuotes.getD (rand k % validQuotes.length) ⟨"", ""⟩
    match current with
    | some c =>
      if randomQuote.text == c.text && decide (validQuotes.length > 1) then
        pickLoop validQuotes current rand fuel (k + 1)
      else some randomQuote
    | none => some randomQuote

/-- PerformanceUtils.preloadNextQuote, returning the new preload slot
(the preloadedQuote, preloadedAuthorHTML pair): a no-op when the slot
is filled; otherwise filter the loaded quotes to the valid ones,
return with the slot still empty when none remain, else run the
selection loop and store the chosen quote with its preformatted
author markup.  The quotes parameter is the list the awaited
loadQuotes call resolved to; fa stands for
PerformanceUtils.formatAuthor. -/
def preloadNextQuote (fuel : Nat) (rand : Nat → Nat) (fa : String → String)
    (slot : Option (Quote × String)) (quotes : List Quote)
    (current : Option Quote) : Option (Quote × String) :=
  match slot with
  | some p => some p
  | none =>
    let validQuotes := quotes.filter isValidQuote
    if validQuotes.length = 0 then none
    else
      match pickLoop validQuotes current rand fuel 0 with
      | some q => some (q, fa q.author)
      | none => none

section LoadLemmas

/-- The catch branch never rethrows: every outcome of the fetch path
has thrown = false. -/
lemma fetchPath_thrown (env : LoadEnv) : (fetchPath env).thrown = false := by
  unfold fetchPath loadFailure
  rcases env.fetch with _ | _ | _ | v
  · rfl
  · rfl
  · rfl
  · cases v with
    | arr items =>
      dsimp only
      split <;> rfl
    | notArr => rfl

/-- The fetch path always performs the fetch. -/
lemma fetchPath_fetched (env : LoadEnv) : (fetchPath env).fetched = true := by
  unfold fetchPath loadFailure
  rcases env.fetch with _ | _ | _ | v
  · rfl
  · rfl
  · rfl
  · cases v with
    | arr items =>
      dsimp only
      split <;> rfl
    | notArr => rfl

/-- Any failing fetch outcome lands in the catch branch. -/
lemma fetchPath_of_fails (env : LoadEnv) (h : fetchFails env.fetch = true) :
    fetchPath env = loadFailure := by
  unfold fetchPath
  rcases hf : env.fetch with _ | _ | _ | v
  · rfl
  · rfl
  · rfl
  · cases v with
    | arr items =>
      dsimp only
      rw [hf] at h
      simp only [fetchFails, Bool.not_eq_true'] at h
      simp [h]
    | notArr => rfl

/-- A fully successful fetch returns the validated array and caches
it with a fresh timestamp. -/
lemma fetchPath_of_success (env : LoadEnv) (items : List JElem)
    (hf : env.fetch = .ok (.arr items)) (hv : items.all isValidQuoteE = true) :
    fetchPath env =
      { thrown := false, result := some (.arr items), errorShown := false,
        newCache := some (.arr items, env.now), fetched := true } := by
  unfold fetchPath
  rw [hf]
  simp [hv]

/-- On a cache miss loadQuotes runs the fetch path. -/
lemma loadQuotes_of_miss (env : LoadEnv) (h : cacheHit env = false) :
    loadQuotes env = fetchPath env := by
  obtain ⟨cd, ts, now, f⟩ := env
  cases cd with
  | none => rfl
  | some blob =>
    cases ts with
    | none => rfl
    | some t =>
      simp only [cacheHit, decide_eq_false_iff_not] at h
      simp [loadQuotes, h]

/-- On a cache hit with a parseable blob, loadQuotes returns the
parsed value with no fetch, no error and no cache write. -/
lemma loadQuotes_of_hit (v : JVal) (ts now : Int) (f : FetchOutcome)
    (h : now - ts < cacheExpiry) :
    loadQuotes ⟨some (.val v), some ts, now, f⟩ =
      { thrown := false, result := some v, errorShown := false,
        newCache := none, fetched := false } := by
  simp [loadQuotes, h]

end LoadLemmas

/-- C1 counterexample: a present, fresh cache whose blob is not valid
JSON makes loadQuotes throw — JSON.parse of the cached blob runs
before the try block, so the exception propagates to the caller,
refuting the claim that loadQuotes never propagates an exception for
any contents of the local-storage cache. -/
theorem loadQuotes_throws_on_fresh_malformed_cache :
    (loadQuotes ⟨some .invalid, some 0, 0, .networkError⟩).thrown = true := by
  decide

/-- C1 (amended): loadQuotes propagates an exception exactly when the
cache is present and fresh but its blob is not valid JSON; every
failure on the fetch path (network error, non-ok response, response
parse error, non-array body, schema violation) is caught inside
loadQuotes, activates the error surface, and resolves to the empty
list. -/
theorem loadQuotes_error_containment (env : LoadEnv) :
    ((loadQuotes env).thrown = true ↔ freshInvalid env = true)
    ∧ (cacheHit env = false → fetchFails env.fetch = true →
        loadQuotes env = loadFailure) := by
  constructor
  · obtain ⟨cd, ts, now, f⟩ := env
    cases cd with
    | none =>
      simp only [loadQuotes, freshInvalid]
      simp [fetchPath_thrown ⟨none, ts, now, f⟩]
    | some blob =>
      cases ts with
      | none =>
        cases blob <;>
          simp [loadQuotes, freshInvalid, fetchPath_thrown ⟨some _, none, now, f⟩]
      | some t =>
        by_cases h : now - t < cacheExpiry
        · cases blob with
          | invalid => simp [loadQuotes, freshInvalid, h]
          | val v => simp [loadQuotes, freshInvalid, h]
        · cases blob with
          | invalid =>
            simp [loadQuotes, freshInvalid, h,
              fetchPath_thrown ⟨some .invalid, some t, now, f⟩]
          | val v =>
            simp [loadQuotes, freshInvalid, h,
              fetchPath_thrown ⟨some (.val v), some t, now, f⟩]
  · intro hmiss hfail
    rw [loadQuotes_of_miss env hmiss, fetchPath_of_fails env hfail]

/-- C1 witness: with no cache and a rejecting fetch, loadQuotes
resolves to the catch outcome (empty list, error surface, nothing
thrown). -/
theorem loadQuotes_error_containment_witness :
    loadQuotes ⟨none, none, 0, .networkError⟩ = loadFailure :=
  (loadQuotes_error_containment ⟨none, none, 0, .networkError⟩).2
    (by decide) (by decide)

/-- C2: a load within 24 hours of a cached snapshot returns the
cached list and performs no fetch; on a cache miss (absent entries or
a timestamp at least 24 hours old) exactly one fetch is performed,
and when it fully succeeds both the cached list and the timestamp are
overwritten unconditionally with the fresh values. -/
theorem loadQuotes_cache_freshness :
    (∀ (v : JVal) (ts now : Int) (f : FetchOutcome),
      now - ts < cacheExpiry →
        loadQuotes ⟨some (.val v), some ts, now, f⟩ =
          { thrown := false, result := some v, errorShown := false,
            newCache := none, fetched := false })
    ∧ (∀ env : LoadEnv, cacheHit env = false →
        (loadQuotes env).fetched = true
        ∧ ∀ items : List JElem, env.fetch = .ok (.arr items) →
            items.all isValidQuoteE = true →
              (loadQuotes env).newCache = some (.arr items, env.now)
              ∧ (loadQuotes env).result = some (.arr items)) := by
  constructor
  · intro v ts now f h
    exact loadQuotes_of_hit v ts now f h
  · intro env hmiss
    rw [loadQuotes_of_miss env hmiss]
    refine ⟨fetchPath_fetched env, ?_⟩
    intro items hf hv
    rw [fetchPath_of_success env items hf hv]
    exact ⟨rfl, rfl⟩

/-- C2 witness: a fresh cached empty list is returned without a
fetch, and a cache miss with a valid fetched list caches the list
with the fresh timestamp. -/
theorem loadQuotes_cache_freshness_witness :
    loadQuotes ⟨some (.val (.arr [])), some 0, 1000, .networkError⟩ =
      { thrown := false, result := some (.arr []), errorShown := false,
        newCache := none, fetched := false }
    ∧ (loadQuotes ⟨none, none, 5, .ok (.arr [.strQuote ⟨"Hi", "A"⟩])⟩).newCache =
        some (.arr [.strQuote ⟨"Hi", "A"⟩], 5) :=
  ⟨loadQuotes_cache_freshness.1 (.arr []) 0 1000 .networkError (by decide),
   ((loadQuotes_cache_freshness.2
      ⟨none, none, 5, .ok (.arr [.strQuote ⟨"Hi", "A"⟩])⟩ (by decide)).2
      [.strQuote ⟨"Hi", "A"⟩] rfl (by decide)).1⟩

/-- C10: on a cache hit the parsed cached array is returned as-is,
with no fetch and no application of the validity predicate to its
elements; the validity predicate is applied only on the fresh-fetch
path, where an array with an invalid element falls into the catch
branch. -/
theorem loadQuotes_cache_hit_unvalidated :
    (∀ (items : List JElem) (ts now : Int) (f : FetchOutcome),
      now - ts < cacheExpiry →
        (loadQuotes ⟨some (.val (.arr items)), some ts, now, f⟩).result =
          some (.arr items)
        ∧ (loadQuotes ⟨some (.val (.arr items)), some ts, now, f⟩).fetched = false)
    ∧ (∀ env : LoadEnv, cacheHit env = false →
        ∀ items : List JElem, env.fetch = .ok (.arr items) →
          items.all isValidQuoteE = false → loadQuotes env = loadFailure) := by
  constructor
  · intro items ts now f h
    rw [loadQuotes_of_hit (.arr items) ts now f h]
    exact ⟨rfl, rfl⟩
  · intro env hmiss items hf hv
    rw [loadQuotes_of_miss env hmiss]
    apply fetchPath_of_fails
    rw [hf]
    simp [fetchFails, hv]

/-- C10 witness: a fresh cached singleton list whose element fails
isValidQuote is returned unfiltered, and the same list arriving via
the fetch path is rejected. -/
theorem loadQuotes_cache_hit_unvalidated_witness :
    ((loadQuotes ⟨some (.val (.arr [.other])), some 0, 0, .networkError⟩).result =
      some (.arr [.other]))
    ∧ loadQuotes ⟨none, none, 0, .ok (.arr [.other])⟩ = loadFailure :=
  ⟨(loadQuotes_cache_hit_unvalidated.1 [.other] 0 0 .networkError (by decide)).1,
   loadQuotes_cache_hit_unvalidated.2 ⟨none, none, 0, .ok (.arr [.other])⟩
     (by decide) [.other] rfl (by decide)⟩

section BookmarkLemmas

/-- A freshly built bookmark entry for q matches q. -/
lemma bmMatches_self (q : Quote) (n : Int) :
    bmMatches q ⟨q.text, q.author, n⟩ = true := by
  simp [bmMatches]

/-- When no entry matches q, filtering out the matches of q keeps the
collection unchanged. -/
lemma filter_not_match_of_not_bookmarked (bm : List BQuote) (q : Quote)
    (h : isQuoteBookmarked bm q = false) :
    bm.filter (fun b => !(bmMatches q b)) = bm := by
  apply List.filter_eq_self.mpr
  intro b hb
  have hb2 : bmMatches q b = false := by
    by_contra hc
    simp only [Bool.not_eq_false] at hc
    have : bm.any (bmMatches q) = true := List.any_eq_true.mpr ⟨b, hb, hc⟩
    rw [isQuoteBookmarked] at h
    rw [h] at this
    exact Bool.false_ne_true this
  simp [hb2]

/-- After removing every match of q, q is no longer bookmarked. -/
lemma isQuoteBookmarked_filter (bm : List BQuote) (q : Quote) :
    isQuoteBookmarked (bm.filter (fun b => !(bmMatches q b))) q = false := by
  by_contra hc
  simp only [Bool.not_eq_false, isQuoteBookmarked, List.any_eq_true,
    List.mem_filter] at hc
  obtain ⟨b, ⟨_, hbf⟩, hbt⟩ := hc
  rw [hbt] at hbf
  exact Bool.false_ne_true hbf

/-- Splitting a list length into the entries removed and kept by a
filter on the negated predicate. -/
lemma length_filter_not_add_countP (l : List BQuote) (p : BQuote → Bool) :
    (l.filter (fun b => !(p b))).length + l.countP p = l.length := by
  induction l with
  | nil => rfl
  | cons b t ih =>
    by_cases hb : p b = true
    · simp [List.filter_cons, List.countP_cons, hb, ← ih]
      omega
    · simp only [Bool.not_eq_true] at hb
      simp [List.filter_cons, List.countP_cons, hb, ← ih]
      omega

/-- With pairwise-distinct (text, author) pairs, a bookmarked quote
has exactly one matching entry. -/
lemma countP_match_eq_one (bm : List BQuote) (q : Quote)
    (hU : (bm.map fun b => (b.text, b.author)).Nodup)
    (hB : isQuoteBookmarked bm q = true) :
    bm.countP (bmMatches q) = 1 := by
  induction bm with
  | nil => simp [isQuoteBookmarked] at hB
  | cons b t ih =>
    simp only [List.map_cons, List.nodup_cons] at hU
    obtain ⟨hb, ht⟩ := hU
    by_cases hmb : bmMatches q b = true
    · have hzero : t.countP (bmMatches q) = 0 := by
        apply List.countP_eq_zero.mpr
        intro c hc
        simp only [Bool.not_eq_true]
        by_contra hcc
        simp only [Bool.not_eq_false] at hcc
        simp only [bmMatches, Bool.and_eq_true, beq_iff_eq] at hmb hcc
        exact hb (by
          rw [List.mem_map]
          exact ⟨c, hc, by rw [hcc.1, hcc.2, hmb.1, hmb.2]⟩)
      simp [List.countP_cons, hmb, hzero]
    · simp only [Bool.not_eq_true] at hmb
      have hBt : isQuoteBookmarked t q = true := by
        simp only [isQuoteBookmarked, List.any_cons, hmb, Bool.false_or] at hB
        exact hB
      simp [List.countP_cons, hmb, ih ht hBt]

/-- hasPair distributes over append. -/
lemma hasPair_append (l1 l2 : List BQuote) (t a : String) :
    hasPair (l1 ++ l2) t a = (hasPair l1 t a || hasPair l2 t a) := by
  simp [hasPair, List.any_append]

/-- Removing the matches of q cannot change whether a pair other than
the pair of q is present. -/
lemma hasPair_filter_not_match (bm : List BQuote) (q : Quote) (t a : String)
    (h : (q.text == t && q.author == a) = false) :
    hasPair (bm.filter (fun b => !(bmMatches q b))) t a = hasPair bm t a := by
  induction bm with
  | nil => rfl
  | cons b l ih =>
    by_cases hmb : bmMatches q b = true
    · have hbp : (b.text == t && b.author == a) = false := by
        simp only [bmMatches, Bool.and_eq_true, beq_iff_eq] at hmb
        rw [hmb.1, hmb.2]
        exact h
      have hfc : (b :: l).filter (fun x => !(bmMatches q x)) =
          l.filter (fun x => !(bmMatches q x)) := by
        simp [List.filter_cons, hmb]
      rw [hfc, ih]
      simp [hasPair, List.any_cons, hbp]
    · simp only [Bool.not_eq_true] at hmb
      have hfc : (b :: l).filter (fun x => !(bmMatches q x)) =
          b :: l.filter (fun x => !(bmMatches q x)) := by
        simp [List.filter_cons, hmb]
      rw [hfc]
      simp only [hasPair, List.any_cons] at ih ⊢
      rw [ih]

/-- A bookmarked quote makes its own pair present. -/
lemma hasPair_of_bookmarked (bm : List BQuote) (q : Quote)
    (hB : isQuoteBookmarked bm q = true) (t a : String)
    (h : (q.text == t && q.author == a) = true) :
    hasPair bm t a = true := by
  simp only [isQuoteBookmarked, List.any_eq_true, bmMatches,
    Bool.and_eq_true, beq_iff_eq] at hB
  obtain ⟨b, hb, hbt, hba⟩ := hB
  simp only [Bool.and_eq_true, beq_iff_eq] at h
  simp only [hasPair, List.any_eq_true, Bool.and_eq_true, beq_iff_eq]
  exact ⟨b, hb, by rw [hbt, h.1], by rw [hba, h.2]⟩

end BookmarkLemmas

/-- C6: under the uniqueness invariant of the bookmark data model (no
two entries share the same (text, author) pair), toggling the
bookmark of the currently displayed quote twice restores the original
collection: the same (text, author) memberships and the same element
count. -/
theorem toggleBookmark_twice_restores (bm : List BQuote) (cursor : Nat)
    (q : Quote) (n1 n2 : Int)
    (hU : (bm.map fun b => (b.text, b.author)).Nodup) :
    (∀ t a : String,
      hasPair (toggleBookmark q n2 (toggleBookmark q n1 bm cursor).1
                 (toggleBookmark q n1 bm cursor).2).1 t a = hasPair bm t a)
    ∧ (toggleBookmark q n2 (toggleBookmark q n1 bm cursor).1
         (toggleBookmark q n1 bm cursor).2).1.length = bm.length := by
  by_cases hB : isQuoteBookmarked bm q = true
  · -- first toggle removes, second re-appends
    have h1 : (toggleBookmark q n1 bm cursor).1 =
        bm.filter (fun b => !(bmMatches q b)) := by
      simp [toggleBookmark, hB]
    have h2 : (toggleBookmark q n2 (toggleBookmark q n1 bm cursor).1
        (toggleBookmark q n1 bm cursor).2).1 =
        bm.filter (fun b => !(bmMatches q b)) ++ [⟨q.text, q.author, n2⟩] := by
      rw [toggleBookmark, h1]
      simp [isQuoteBookmarked_filter bm q]
    constructor
    · intro t a
      rw [h2, hasPair_append]
      by_cases hpa : (q.text == t && q.author == a) = true
      · rw [hasPair_of_bookmarked bm q hB t a hpa]
        have : hasPair [⟨q.text, q.author, n2⟩] t a = true := by
          simpa [hasPair] using hpa
        simp [this]
      · simp only [Bool.not_eq_true] at hpa
        rw [hasPair_filter_not_match bm q t a hpa]
        have : hasPair [⟨q.text, q.author, n2⟩] t a = false := by
          simpa [hasPair] using hpa
        simp [this]
    · rw [h2]
      have hc := countP_match_eq_one bm q hU hB
      have hl := length_filter_not_add_countP bm (bmMatches q)
      simp only [List.length_append, List.length_cons, List.length_nil]
      omega
  · -- first toggle appends, second removes exactly the new entry
    simp only [Bool.not_eq_true] at hB
    have h1 : (toggleBookmark q n1 bm cursor).1 =
        bm ++ [⟨q.text, q.author, n1⟩] := by
      simp [toggleBookmark, hB]
    have hB1 : isQuoteBookmarked (bm ++ [⟨q.text, q.author, n1⟩]) q = true := by
      simp [isQuoteBookmarked, List.any_append, bmMatches]
    have h2 : (toggleBookmark q n2 (toggleBookmark q n1 bm cursor).1
        (toggleBookmark q n1 bm cursor).2).1 = bm := by
      rw [toggleBookmark, h1]
      simp only [hB1, if_true]
      rw [List.filter_append, filter_not_match_of_not_bookmarked bm q hB]
      simp [bmMatches_self]
    rw [h2]
    exact ⟨fun _ _ => rfl, rfl⟩

/-- C6 witness: toggling twice on a two-element collection not
containing the quote, and once more on one containing it, restores
memberships and count. -/
theorem toggleBookmark_twice_restores_witness :
    hasPair (toggleBookmark ⟨"x", "X"⟩ 7
        (toggleBookmark ⟨"x", "X"⟩ 3 [⟨"a", "A", 0⟩, ⟨"b", "B", 1⟩] 0).1
        (toggleBookmark ⟨"x", "X"⟩ 3 [⟨"a", "A", 0⟩, ⟨"b", "B", 1⟩] 0).2).1
      "x" "X" = hasPair [⟨"a", "A", 0⟩, ⟨"b", "B", 1⟩] "x" "X"
    ∧ (toggleBookmark ⟨"x", "X"⟩ 7
        (toggleBookmark ⟨"x", "X"⟩ 3 [⟨"a", "A", 0⟩, ⟨"b", "B", 1⟩] 0).1
        (toggleBookmark ⟨"x", "X"⟩ 3 [⟨"a", "A", 0⟩, ⟨"b", "B", 1⟩] 0).2).1.length
      = 2 :=
  ⟨(toggleBookmark_twice_restores [⟨"a", "A", 0⟩, ⟨"b", "B", 1⟩] 0
      ⟨"x", "X"⟩ 3 7 (by decide)).1 "x" "X",
   (toggleBookmark_twice_restores [⟨"a", "A", 0⟩, ⟨"b", "B", 1⟩] 0
      ⟨"x", "X"⟩ 3 7 (by decide)).2⟩

section CycleLemmas

/-- viewNextBookmarkedQuote never changes the collection. -/
lemma viewNext_bookmarks (bm : List BQuote) (c : Nat) :
    (viewNextBookmarkedQuote bm c).bookmarks = bm := by
  unfold viewNextBookmarkedQuote
  split <;> rfl

/-- On a non-empty collection the cursor advances by one modulo the
length. -/
lemma viewNext_cursor (bm : List BQuote) (c : Nat) (h : bm ≠ []) :
    (viewNextBookmarkedQuote bm c).cursor = (c + 1) % bm.length := by
  have hl : ¬(bm.length = 0) := by simpa [List.length_eq_zero] using h
  simp [viewNextBookmarkedQuote, hl]

/-- On a non-empty collection the displayed bookmark is the one at
the entry cursor. -/
lemma viewNext_displayed (bm : List BQuote) (c : Nat) (h : bm ≠ []) :
    (viewNextBookmarkedQuote bm c).displayed = bm[c]? := by
  have hl : ¬(bm.length = 0) := by simpa [List.length_eq_zero] using h
  simp [viewNextBookmarkedQuote, hl]

/-- After k next-calls on a non-empty collection the cursor has
advanced by k modulo the length. -/
lemma cycleNextIter_cursor (bm : List BQuote) (hbm : bm ≠ []) :
    ∀ (k c : Nat), c < bm.length →
      cycleNextIter k (bm, c) = (bm, (c + k) % bm.length) := by
  intro k
  induction k with
  | zero =>
    intro c hc
    simp [cycleNextIter, Nat.mod_eq_of_lt hc]
  | succ k ih =>
    intro c hc
    have hpos : 0 < bm.length := List.length_pos.mpr hbm
    have step : cycleNextIter (k + 1) (bm, c) =
        cycleNextIter k (bm, (c + 1) % bm.length) := by
      simp [cycleNextIter, viewNext_bookmarks, viewNext_cursor bm c hbm]
    have harr : c + 1 + k = c + (k + 1) := by omega
    rw [step, ih ((c + 1) % bm.length) (Nat.mod_lt _ hpos)]
    rw [Nat.mod_add_mod, harr]

end CycleLemmas

/-- C7: on a non-empty collection of length L with an in-range
cursor, L next-calls return the cursor (and the unchanged collection)
to its starting value, so the bookmark at the cursor is again the
original starting bookmark, which the first call displayed; on an
empty collection the call changes nothing and displays nothing, only
announcing a notice. -/
theorem cycleNext_period :
    (∀ (bm : List BQuote) (c : Nat), bm ≠ [] → c < bm.length →
      cycleNextIter bm.length (bm, c) = (bm, c)
      ∧ (viewNextBookmarkedQuote bm c).displayed = bm[c]?
      ∧ (viewNextBookmarkedQuote bm c).displayed.isSome = true)
    ∧ (∀ c : Nat, (viewNextBookmarkedQuote [] c).bookmarks = []
        ∧ (viewNextBookmarkedQuote [] c).cursor = c
        ∧ (viewNextBookmarkedQuote [] c).displayed = none) := by
  constructor
  · intro bm c hbm hc
    refine ⟨?_, viewNext_displayed bm c hbm, ?_⟩
    · rw [cycleNextIter_cursor bm hbm bm.length c hc]
      rw [Nat.add_mod_right, Nat.mod_eq_of_lt hc]
    · rw [viewNext_displayed bm c hbm]
      simp [List.getElem?_eq_getElem hc]
  · intro c
    exact ⟨rfl, rfl, rfl⟩

/-- C7 witness: two next-calls on a two-element collection restore
the cursor, the first call displays the starting bookmark, and the
empty collection is a no-op. -/
theorem cycleNext_period_witness :
    cycleNextIter 2 ([⟨"a", "A", 0⟩, ⟨"b", "B", 1⟩], 1) =
      ([⟨"a", "A", 0⟩, ⟨"b", "B", 1⟩], 1)
    ∧ (viewNextBookmarkedQuote [⟨"a", "A", 0⟩, ⟨"b", "B", 1⟩] 1).displayed =
        some ⟨"b", "B", 1⟩
    ∧ (viewNextBookmarkedQuote [] 4).cursor = 4 :=
  ⟨((cycleNext_period.1 [⟨"a", "A", 0⟩, ⟨"b", "B", 1⟩] 1
      (by decide) (by decide)).1),
   by
    rw [(cycleNext_period.1 [⟨"a", "A", 0⟩, ⟨"b", "B", 1⟩] 1
      (by decide) (by decide)).2.1]
    decide,
   (cycleNext_period.2 4).2.1⟩

/-- C8 counterexample: on the two-element collection with cursor 1,
viewPreviousBookmarkedQuote displays the bookmark at the retreated
cursor (position 0), not the bookmark located at the cursor as it was
on entry (position 1), refuting the claim for cyclePrevious. -/
theorem viewPrevious_displays_retreated_cex :
    (viewPreviousBookmarkedQuote [⟨"a", "A", 0⟩, ⟨"b", "B", 1⟩] 1).displayed =
      some ⟨"a", "A", 0⟩
    ∧ (viewPreviousBookmarkedQuote [⟨"a", "A", 0⟩, ⟨"b", "B", 1⟩] 1).displayed ≠
        ([⟨"a", "A", 0⟩, ⟨"b", "B", 1⟩] : List BQuote)[1]? := by
  decide

/-- C8 (amended): on a non-empty collection, cycleNext displays the
bookmark at the entry cursor and then advances the cursor modulo the
length, while cyclePrevious first retreats the cursor modulo the
length and then displays the bookmark at the retreated cursor;
both wrap in their direction, leave the collection unchanged, and on
an empty collection change nothing apart from a notice. -/
theorem bookmark_cycle_amended :
    (∀ (bm : List BQuote) (c : Nat), bm ≠ [] →
      (viewNextBookmarkedQuote bm c).displayed = bm[c]?
      ∧ (viewNextBookmarkedQuote bm c).cursor = (c + 1) % bm.length
      ∧ (viewNextBookmarkedQuote bm c).bookmarks = bm)
    ∧ (∀ (bm : List BQuote) (c : Nat), bm ≠ [] →
      (viewPreviousBookmarkedQuote bm c).cursor = (c + bm.length - 1) % bm.length
      ∧ (viewPreviousBookmarkedQuote bm c).displayed =
          bm[(c + bm.length - 1) % bm.length]?
      ∧ (viewPreviousBookmarkedQuote bm c).bookmarks = bm)
    ∧ (∀ c : Nat,
        (viewNextBookmarkedQuote [] c).bookmarks = []
        ∧ (viewNextBookmarkedQuote [] c).cursor = c
        ∧ (viewPreviousBookmarkedQuote [] c).bookmarks = []
        ∧ (viewPreviousBookmarkedQuote [] c).cursor = c) := by
  refine ⟨?_, ?_, ?_⟩
  · intro bm c hbm
    exact ⟨viewNext_displayed bm c hbm, viewNext_cursor bm c hbm,
      viewNext_bookmarks bm c⟩
  · intro bm c hbm
    have hl : ¬(bm.length = 0) := by simpa [List.length_eq_zero] using hbm
    refine ⟨?_, ?_, ?_⟩ <;> simp [viewPreviousBookmarkedQuote, hl]
  · intro c
    exact ⟨rfl, rfl, rfl, rfl⟩

/-- C8 witness: the amended pre-display next and post-retreat
previous behavior on a concrete two-element collection, with
wrapping in both directions. -/
theorem bookmark_cycle_amended_witness :
    (viewNextBookmarkedQuote [⟨"a", "A", 0⟩, ⟨"b", "B", 1⟩] 1).displayed =
      some ⟨"b", "B", 1⟩
    ∧ (viewNextBookmarkedQuote [⟨"a", "A", 0⟩, ⟨"b", "B", 1⟩] 1).cursor = 0
    ∧ (viewPreviousBookmarkedQuote [⟨"a", "A", 0⟩, ⟨"b", "B", 1⟩] 0).cursor = 1
    ∧ (viewPreviousBookmarkedQuote [⟨"a", "A", 0⟩, ⟨"b", "B", 1⟩] 0).displayed =
        some ⟨"b", "B", 1⟩ := by
  have h1 := (bookmark_cycle_amended.1 [⟨"a", "A", 0⟩, ⟨"b", "B", 1⟩] 1
    (by decide))
  have h2 := (bookmark_cycle_amended.2.1 [⟨"a", "A", 0⟩, ⟨"b", "B", 1⟩] 0
    (by decide))
  refine ⟨?_, ?_, ?_, ?_⟩
  · rw [h1.1]; decide
  · rw [h1.2.1]; decide
  · rw [h2.1]; decide
  · rw [h2.2.1]; decide

section TypingLemmas

/-- The rendered quote text is never empty: it is wrapped in a pair
of quotation marks. -/
lemma getQuoteText_length_pos (q : Quote) : 0 < (getQuoteText q).length := by
  simp only [getQuoteText]
  rw [String.length_append, String.length_append]
  have h : (0 : Nat) < "\"".length := by decide
  omega

/-- The forced-completion branch of typeQuote: full render, index at
the end, typing over, paused. -/
lemma typeQuoteStep_forced (pm : Bool) (s : AppState)
    (h : ((s.finishImmediately || pm) || s.isPaused) = true) :
    (typeQuoteStep pm s).container = renderFull s.quoteText s.authorHTML
    ∧ (typeQuoteStep pm s).currentIndex = s.quoteText.length
    ∧ (typeQuoteStep pm s).isTyping = false
    ∧ (typeQuoteStep pm s).isPaused = true
    ∧ (typeQuoteStep pm s).currentQuote = s.currentQuote
    ∧ (typeQuoteStep pm s).quoteText = s.quoteText := by
  unfold typeQuoteStep
  simp [h]

/-- The per-character branch of typeQuote: one more character
revealed, everything else as before. -/
lemma typeQuoteStep_mid (s : AppState) (hf : s.finishImmediately = false)
    (hp : s.isPaused = false) (hi : s.currentIndex < s.quoteText.length) :
    (typeQuoteStep false s).currentQuote = s.currentQuote
    ∧ (typeQuoteStep false s).quoteText = s.quoteText
    ∧ (typeQuoteStep false s).authorHTML = s.authorHTML
    ∧ (typeQuoteStep false s).finishImmediately = false
    ∧ (typeQuoteStep false s).currentIndex = s.currentIndex + 1
    ∧ (typeQuoteStep false s).isTyping = s.isTyping
    ∧ (typeQuoteStep false s).isPaused = false
    ∧ (typeQuoteStep false s).isProcessing = s.isProcessing
    ∧ (typeQuoteStep false s).container =
        renderTyped (jsTake s.quoteText (s.currentIndex + 1)) := by
  unfold typeQuoteStep
  simp [hf, hp, hi]

/-- The natural-completion branch of typeQuote: full render with the
author, typing over, still unpaused. -/
lemma typeQuoteStep_done (s : AppState) (hf : s.finishImmediately = false)
    (hp : s.isPaused = false) (hi : ¬ s.currentIndex < s.quoteText.length) :
    (typeQuoteStep false s).container = renderFull s.quoteText s.authorHTML
    ∧ (typeQuoteStep false s).isTyping = false
    ∧ (typeQuoteStep false s).isPaused = false := by
  unfold typeQuoteStep
  simp [hf, hp, hi]

/-- displayQuote on a valid quote installs the new session and runs
the first typeQuote invocation. -/
lemma displayQuote_valid (pm : Bool) (fa : String → String) (q : Quote)
    (i : Nat) (fin : Bool) (pa : Option String) (s : AppState)
    (hq : isValidQuote q = true) :
    displayQuote pm fa (some q) i fin pa s =
      typeQuoteStep pm
        { s with currentQuote := some q,
                 quoteText := getQuoteText q,
                 authorHTML := pa.getD (fa q.author),
                 currentIndex := i,
                 isTyping := true,
                 finishImmediately := fin } := by
  simp [displayQuote, hq]

/-- Invariant of the mid-typing states: after the session for q
started at index 0 and j characters are revealed, the session fields
and the rendered prefix are determined. -/
def TypingMid (q : Quote) (a : String) (proc : Bool) (j : Nat)
    (s : AppState) : Prop :=
  s.currentQuote = some q ∧ s.quoteText = getQuoteText q
  ∧ s.authorHTML = a ∧ s.finishImmediately = false ∧ s.currentIndex = j
  ∧ s.isTyping = true ∧ s.isPaused = false ∧ s.isProcessing = proc
  ∧ s.container = renderTyped (jsTake (getQuoteText q) j)

/-- While the reveal loop is still inside the text, the k-th
timer-scheduled invocation after displayQuote leaves the session in
the mid-typing state with k + 1 characters revealed. -/
lemma runTyping_invariant (fa : String → String) (q : Quote)
    (pa : Option String) (s0 : AppState) (hq : isValidQuote q = true)
    (hp : s0.isPaused = false) :
    ∀ k : Nat, k + 1 ≤ (getQuoteText q).length →
      TypingMid q (pa.getD (fa q.author)) s0.isProcessing (k + 1)
        (runTyping false k (displayQuote false fa (some q) 0 false pa s0)) := by
  intro k
  induction k with
  | zero =>
    intro hk
    show TypingMid _ _ _ _ (displayQuote false fa (some q) 0 false pa s0)
    rw [displayQuote_valid false fa q 0 false pa s0 hq]
    have hm := typeQuoteStep_mid
      { s0 with currentQuote := some q, quoteText := getQuoteText q,
                authorHTML := pa.getD (fa q.author), currentIndex := 0,
                isTyping := true, finishImmediately := false }
      (by simp) (by simp [hp]) (by simpa using hk)
    obtain ⟨h1, h2, h3, h4, h5, h6, h7, h8, h9⟩ := hm
    exact ⟨by simpa using h1, by simpa using h2, by simpa using h3, h4,
      by simpa using h5, by simpa using h6, h7, by simpa using h8,
      by simpa using h9⟩
  | succ k ih =>
    intro hk
    have ihm := ih (by omega)
    obtain ⟨h1, h2, h3, h4, h5, h6, h7, h8, h9⟩ := ihm
    show TypingMid _ _ _ _ (typeQuoteStep false
      (runTyping false k (displayQuote false fa (some q) 0 false pa s0)))
    have hm := typeQuoteStep_mid
      (runTyping false k (displayQuote false fa (some q) 0 false pa s0))
      h4 h7 (by rw [h5, h2]; omega)
    obtain ⟨g1, g2, g3, g4, g5, g6, g7, g8, g9⟩ := hm
    refine ⟨by rw [g1, h1], by rw [g2, h2], by rw [g3, h3], g4,
      by rw [g5, h5], by rw [g6, h6], g7, by rw [g8, h8],
      by rw [g9, h5, h2]⟩

/-- Letting the reveal loop run to natural completion renders the
full quote text followed by the author markup. -/
lemma runTyping_natural_container (fa : String → String) (q : Quote)
    (pa : Option String) (s0 : AppState) (hq : isValidQuote q = true)
    (hp : s0.isPaused = false) :
    (runTyping false (getQuoteText q).length
        (displayQuote false fa (some q) 0 false pa s0)).container =
      renderFull (getQuoteText q) (pa.getD (fa q.author)) := by
  have hlen : 0 < (getQuoteText q).length := getQuoteText_length_pos q
  obtain ⟨m, hm⟩ : ∃ m, (getQuoteText q).length = m + 1 :=
    ⟨(getQuoteText q).length - 1, by omega⟩
  rw [hm]
  have hinv := runTyping_invariant fa q pa s0 hq hp m (by omega)
  obtain ⟨h1, h2, h3, h4, h5, h6, h7, h8, h9⟩ := hinv
  show (typeQuoteStep false
    (runTyping false m (displayQuote false fa (some q) 0 false pa s0))).container = _
  have hd := typeQuoteStep_done
    (runTyping false m (displayQuote false fa (some q) 0 false pa s0))
    h4 h7 (by rw [h5, h2, hm]; omega)
  rw [hd.1, h2, h3]

/-- A click on a state that is typing and unpaused force-finishes:
the container holds the full text with the freshly formatted author
markup. -/
lemma handleClick_force_container (pm : Bool) (fa : String → String)
    (next : Option (Quote × String)) (s : AppState) (q : Quote)
    (hproc : s.isProcessing = false) (hty : s.isTyping = true)
    (hp : s.isPaused = false) (hcq : s.currentQuote = some q)
    (hq : isValidQuote q = true) :
    (handleClick pm fa next s).container =
      renderFull (getQuoteText q) (fa q.author) := by
  obtain ⟨cq, qt, ah, fi, ci, ity, ip, ipr, co, er, rn⟩ := s
  dsimp only at hproc hty hp hcq
  subst hproc hty hp hcq
  simp [handleClick, displayQuote, hq, typeQuoteStep]

end TypingLemmas

/-- C3: for a valid quote typed from index 0 in animation mode, a
click that force-finishes after any number i of timer steps with the
reveal still inside the text (revealed index i + 1 up to the full
length) leaves exactly the same final container content — the full
quote text plus the author markup — as letting the reveal loop run to
natural completion.  The hpa hypothesis records that the author
markup the session started with is the formatted author of the same
quote, which holds on every call path of the script (the preloaded
markup is produced by the same formatAuthor function). -/
theorem typing_force_finish_eq_natural (fa : String → String) (q : Quote)
    (pa : Option String) (s0 : AppState) (i : Nat)
    (hq : isValidQuote q = true)
    (hpa : pa.getD (fa q.author) = fa q.author)
    (hp : s0.isPaused = false) (hpr : s0.isProcessing = false)
    (hi : i < (getQuoteText q).length) :
    (handleClick false fa none (runTyping false i
        (displayQuote false fa (some q) 0 false pa s0))).container =
      (runTyping false (getQuoteText q).length
        (displayQuote false fa (some q) 0 false pa s0)).container := by
  rw [runTyping_natural_container fa q pa s0 hq hp, hpa]
  have hinv := runTyping_invariant fa q pa s0 hq hp i (by omega)
  obtain ⟨h1, h2, h3, h4, h5, h6, h7, h8, h9⟩ := hinv
  exact handleClick_force_container false fa none _ q
    (by rw [h8, hpr]) h6 h7 h1 hq

/-- The initial value of the script state: nothing displayed, nothing
typing, unpaused, empty container. -/
def initialAppState : AppState :=
  { currentQuote := none, quoteText := "", authorHTML := "",
    finishImmediately := false, currentIndex := 0, isTyping := false,
    isPaused := false, isProcessing := false, container := "",
    errorShown := false, requestedNext := false }

/-- C3 witness: for the quote ("Hi", "A"), force-finishing after one
timer step produces the same container as the full natural run. -/
theorem typing_force_finish_eq_natural_witness :
    (handleClick false id none (runTyping false 1
        (displayQuote false id (some ⟨"Hi", "A"⟩) 0 false none initialAppState))).container =
      (runTyping false (getQuoteText ⟨"Hi", "A"⟩).length
        (displayQuote false id (some ⟨"Hi", "A"⟩) 0 false none initialAppState)).container :=
  typing_force_finish_eq_natural id ⟨"Hi", "A"⟩ none initialAppState 1
    (by decide) rfl rfl rfl (by decide)

/-- A session for the quote ("Hello", "A") captured mid-typing with
two characters revealed. -/
def typingMidState : AppState :=
  { currentQuote := some ⟨"Hello", "A"⟩,
    quoteText := getQuoteText ⟨"Hello", "A"⟩, authorHTML := "A",
    finishImmediately := false, currentIndex := 2, isTyping := true,
    isPaused := false, isProcessing := false,
    container := renderTyped (jsTake (getQuoteText ⟨"Hello", "A"⟩) 2),
    errorShown := false, requestedNext := false }

/-- A paused session for the quote ("Hello", "A") whose revealed
index sits strictly inside the text, as the claim about resuming
assumes. -/
def pausedMidState : AppState :=
  { currentQuote := some ⟨"Hello", "A"⟩,
    quoteText := getQuoteText ⟨"Hello", "A"⟩, authorHTML := "A",
    finishImmediately := false, currentIndex := 2, isTyping := false,
    isPaused := true, isProcessing := false,
    container := renderTyped (jsTake (getQuoteText ⟨"Hello", "A"⟩) 2),
    errorShown := false, requestedNext := false }

/-- C4 counterexample: from a session paused at revealed index 2 of
the quote ("Hello", "A") — with 0 < 2 < 7 characters revealed — the
resume click hands the display to the freshly requested random quote
("World", "B"), typed from index 0 (one character revealed after the
synchronous first step), not a continuation of ("Hello", "A") from
index 2. -/
theorem pause_resume_restart_cex :
    (handleClick false id (some (⟨"World", "B"⟩, "B")) pausedMidState).currentQuote =
      some ⟨"World", "B"⟩
    ∧ (handleClick false id (some (⟨"World", "B"⟩, "B")) pausedMidState).currentIndex = 1
    ∧ pausedMidState.currentIndex = 2
    ∧ some (⟨"World", "B"⟩ : Quote) ≠ some (⟨"Hello", "A"⟩ : Quote) := by
  decide

/-- C4 (amended): a click during unpaused typing does not preserve
the revealed index — it force-finishes the current quote, jumping the
index to the full text length and pausing; a subsequent resume click
from a paused idle session does not continue the paused quote but
clears the display and types the freshly requested random quote from
index 0 — after its synchronous first step exactly one character of
the new quote text is revealed. -/
theorem pause_resume_amended :
    (∀ (pm : Bool) (fa : String → String) (next : Option (Quote × String))
       (s : AppState) (q : Quote),
      s.isProcessing = false → s.isTyping = true → s.isPaused = false →
      s.currentQuote = some q → isValidQuote q = true →
        (handleClick pm fa next s).currentIndex = (getQuoteText q).length
        ∧ (handleClick pm fa next s).isPaused = true
        ∧ (handleClick pm fa next s).isTyping = false
        ∧ (handleClick pm fa next s).container =
            renderFull (getQuoteText q) (fa q.author))
    ∧ (∀ (fa : String → String) (s : AppState) (q2 : Quote) (a2 : String),
      s.isProcessing = false → s.isTyping = false → s.isPaused = true →
      isValidQuote q2 = true →
        (handleClick false fa (some (q2, a2)) s).currentQuote = some q2
        ∧ (handleClick false fa (some (q2, a2)) s).quoteText = getQuoteText q2
        ∧ (handleClick false fa (some (q2, a2)) s).currentIndex = 1
        ∧ (handleClick false fa (some (q2, a2)) s).container =
            renderTyped (jsTake (getQuoteText q2) 1)) := by
  constructor
  · intro pm fa next s q hproc hty hp hcq hq
    have hclick : handleClick pm fa next s =
        displayQuote pm fa (some q) s.currentIndex true none
          { s with isProcessing := true } := by
      unfold handleClick
      rw [hproc]
      simp [hty, hp, hcq]
    rw [hclick, displayQuote_valid pm fa q _ true none _ hq]
    have hforce := typeQuoteStep_forced pm
      { s with currentQuote := some q, quoteText := getQuoteText q,
               authorHTML := (none : Option String).getD (fa q.author),
               currentIndex := s.currentIndex, isTyping := true,
               finishImmediately := true, isProcessing := true }
      (by simp)
    refine ⟨?_, hforce.2.2.2.1, hforce.2.2.1, ?_⟩
    · rw [hforce.2.1]
    · rw [hforce.1]
      simp
  · intro fa s q2 a2 hproc hty hp hq2
    have hclick : handleClick false fa (some (q2, a2)) s =
        displayQuote false fa (some q2) 0 false (some a2)
          { s with isProcessing := true, isPaused := false, container := "" } := by
      unfold handleClick
      rw [hproc]
      simp [hty, hp, setRandomQuote]
    rw [hclick, displayQuote_valid false fa q2 0 false (some a2) _ hq2]
    have hmid := typeQuoteStep_mid
      { s with currentQuote := some q2, quoteText := getQuoteText q2,
               authorHTML := (some a2).getD (fa q2.author), currentIndex := 0,
               isTyping := true, finishImmediately := false,
               isProcessing := true, isPaused := false, container := "" }
      (by simp) (by simp) (by simpa using getQuoteText_length_pos q2)
    obtain ⟨g1, g2, g3, g4, g5, g6, g7, g8, g9⟩ := hmid
    exact ⟨by simpa using g1, by simpa using g2, by simpa using g5,
      by simpa using g9⟩

/-- C4 witness: the pause click on a mid-typing session jumps the
index to the full length, and the resume click from the paused
session reveals exactly one character of the new quote. -/
theorem pause_resume_amended_witness :
    (handleClick false id none typingMidState).currentIndex =
      (getQuoteText ⟨"Hello", "A"⟩).length
    ∧ (handleClick false id (some (⟨"World", "B"⟩, "B")) pausedMidState).currentIndex = 1 :=
  ⟨(pause_resume_amended.1 false id none typingMidState ⟨"Hello", "A"⟩
      rfl rfl rfl rfl (by decide)).1,
   (pause_resume_amended.2 id pausedMidState ⟨"World", "B"⟩ "B"
      rfl rfl rfl (by decide)).2.2.1⟩

/-- An idle, unpaused, completed-display state with a marker
container. -/
def idleUnpausedState : AppState :=
  { currentQuote := some ⟨"Hi", "A"⟩, quoteText := getQuoteText ⟨"Hi", "A"⟩,
    authorHTML := "A", finishImmediately := false, currentIndex := 0,
    isTyping := false, isPaused := false, isProcessing := false,
    container := "X", errorShown := false, requestedNext := false }

/-- C5 counterexample: from an idle unpaused state the pause toggle
of handleClick sets isPaused to true while leaving the container and
the revealed index untouched — isPaused becomes true on a path that
is not the forced-completion branch (no full render, index differs
from the text length), refuting the only-path clause. -/
theorem pause_toggle_sets_paused_cex :
    (handleClick false id none idleUnpausedState).isPaused = true
    ∧ (handleClick false id none idleUnpausedState).container = "X"
    ∧ (handleClick false id none idleUnpausedState).currentIndex ≠
        (handleClick false id none idleUnpausedState).quoteText.length := by
  decide

/-- C5 (amended): whenever the typing step runs with
finishImmediately set (or forced by reduced motion) or with the
session paused, it renders the full text with the author markup at
once and afterwards the revealed index equals the rendered text
length, isTyping is false and isPaused is true; however this branch
is not the only write of true into isPaused — the user pause toggle
in handleClick (reached when not actively typing unpaused) also sets
isPaused to true. -/
theorem forced_completion_amended :
    (∀ (pm : Bool) (s : AppState),
      ((s.finishImmediately || pm) || s.isPaused) = true →
        (typeQuoteStep pm s).container = renderFull s.quoteText s.authorHTML
        ∧ (typeQuoteStep pm s).currentIndex = s.quoteText.length
        ∧ (typeQuoteStep pm s).isTyping = false
        ∧ (typeQuoteStep pm s).isPaused = true)
    ∧ (∀ (pm : Bool) (fa : String → String) (next : Option (Quote × String))
         (s : AppState),
      s.isProcessing = false → s.isTyping = false → s.isPaused = false →
        (handleClick pm fa next s).isPaused = true
        ∧ (handleClick pm fa next s).container = s.container
        ∧ (handleClick pm fa next s).currentIndex = s.currentIndex) := by
  constructor
  · intro pm s h
    have hf := typeQuoteStep_forced pm s h
    exact ⟨hf.1, hf.2.1, hf.2.2.1, hf.2.2.2.1⟩
  · intro pm fa next s hproc hty hp
    unfold handleClick
    rw [hproc]
    simp [hty, hp]

/-- C5 witness: the forced branch on the concrete paused session, and
the toggle on the concrete idle unpaused state. -/
theorem forced_completion_amended_witness :
    (typeQuoteStep false pausedMidState).currentIndex =
      pausedMidState.quoteText.length
    ∧ (typeQuoteStep false pausedMidState).isPaused = true
    ∧ (handleClick false id none idleUnpausedState).isPaused = true :=
  ⟨(forced_completion_amended.1 false pausedMidState (by decide)).2.1,
   (forced_completion_amended.1 false pausedMidState (by decide)).2.2.2,
   (forced_completion_amended.2 false id none idleUnpausedState
      rfl rfl rfl).1⟩

section PreloadLemmas

/-- Whatever the selection loop returns was drawn from the valid
list. -/
lemma pickLoop_mem (validQuotes : List Quote) (cur : Option Quote)
    (rand : Nat → Nat) (hv : validQuotes ≠ []) :
    ∀ (fuel k : Nat) (q : Quote),
      pickLoop validQuotes cur rand fuel k = some q → q ∈ validQuotes := by
  intro fuel
  induction fuel with
  | zero =>
    intro k q h
    simp [pickLoop] at h
  | succ n ih =>
    intro k q h
    have hpos : 0 < validQuotes.length := List.length_pos.mpr hv
    have hidx : rand k % validQuotes.length < validQuotes.length :=
      Nat.mod_lt _ hpos
    have hmem : validQuotes.getD (rand k % validQuotes.length) ⟨"", ""⟩ ∈
        validQuotes := by
      rw [List.getD_eq_getElem validQuotes ⟨"", ""⟩ hidx]
      exact List.getElem_mem hidx
    cases cur with
    | none =>
      simp only [pickLoop, Option.some.injEq] at h
      rw [← h]
      exact hmem
    | some c =>
      simp only [pickLoop] at h
      by_cases hcond :
          ((validQuotes.getD (rand k % validQuotes.length) ⟨"", ""⟩).text == c.text
            && decide (validQuotes.length > 1)) = true
      · rw [if_pos hcond] at h
        exact ih (k + 1) q h
      · rw [if_neg hcond] at h
        simp only [Option.some.injEq] at h
        rw [← h]
        exact hmem

/-- When the selection loop exits with a quote while a current quote
is set and more than one valid quote exists, the chosen text differs
from the current text — the do-while condition failed. -/
lemma pickLoop_exit_text (validQuotes : List Quote) (c : Quote)
    (rand : Nat → Nat) (hlen : 1 < validQuotes.length) :
    ∀ (fuel k : Nat) (q : Quote),
      pickLoop validQuotes (some c) rand fuel k = some q →
        q.text ≠ c.text := by
  intro fuel
  induction fuel with
  | zero =>
    intro k q h
    simp [pickLoop] at h
  | succ n ih =>
    intro k q h
    simp only [pickLoop] at h
    by_cases hcond :
        ((validQuotes.getD (rand k % validQuotes.length) ⟨"", ""⟩).text == c.text
          && decide (validQuotes.length > 1)) = true
    · rw [if_pos hcond] at h
      exact ih (k + 1) q h
    · rw [if_neg hcond] at h
      simp only [Option.some.injEq] at h
      have hgt : decide (validQuotes.length > 1) = true := by
        simpa using hlen
      simp only [hgt, Bool.and_true, beq_iff_eq] at hcond
      rw [← h]
      exact hcond

/-- On the concrete two-quote list whose texts both equal the current
text, the do-while condition holds at every draw, so the selection
loop never exits — for every amount of fuel and every random
sequence. -/
lemma pickLoop_all_fuel_stuck :
    ∀ (fuel k : Nat) (rand : Nat → Nat),
      pickLoop [⟨"t", "a"⟩, ⟨"t", "b"⟩] (some ⟨"t", "x"⟩) rand fuel k = none := by
  intro fuel
  induction fuel with
  | zero => intro k rand; rfl
  | succ n ih =>
    intro k rand
    have h2 : rand k % 2 = 0 ∨ rand k % 2 = 1 := by omega
    rcases h2 with h | h <;>
      simp [pickLoop, h, ih]

end PreloadLemmas

/-- C9 counterexample: with the slot empty, the loaded list holding
two valid quotes whose texts both equal the currently displayed text,
the selection loop never exits (the claim would require storing a
valid quote whose text differs from the current text, but none
exists), so nothing is ever stored in the slot — here observed for
fuel 5 and the constant-zero random sequence, and established for
every fuel and random sequence by the lemma on the stuck loop. -/
theorem preload_same_text_stuck_cex :
    preloadNextQuote 5 (fun _ => 0) id none [⟨"t", "a"⟩, ⟨"t", "b"⟩]
      (some ⟨"t", "x"⟩) = none := by
  have hfil : ([⟨"t", "a"⟩, ⟨"t", "b"⟩] : List Quote).filter isValidQuote =
      [⟨"t", "a"⟩, ⟨"t", "b"⟩] := by decide
  simp only [preloadNextQuote, hfil]
  rw [pickLoop_all_fuel_stuck 5 0 (fun _ => 0)]
  decide

/-- C9 (amended): if the preload slot is already filled,
preloadNextQuote changes nothing.  Otherwise, when the filtered
valid-quote set is non-empty and the selection loop terminates, the
slot receives the chosen quote — a valid one — together with its
pre-rendered author markup, and whenever more than one valid quote
exists the stored text differs from the currently displayed text;
when every valid text equals the current text and more than one valid
quote exists, the loop never terminates and nothing is stored. -/
theorem preloadNextQuote_amended :
    (∀ (fuel : Nat) (rand : Nat → Nat) (fa : String → String)
       (p : Quote × String) (quotes : List Quote) (current : Option Quote),
      preloadNextQuote fuel rand fa (some p) quotes current = some p)
    ∧ (∀ (fuel : Nat) (rand : Nat → Nat) (fa : String → String)
         (quotes : List Quote) (current : Option Quote) (q : Quote),
        quotes.filter isValidQuote ≠ [] →
        pickLoop (quotes.filter isValidQuote) current rand fuel 0 = some q →
          preloadNextQuote fuel rand fa none quotes current =
            some (q, fa q.author)
          ∧ isValidQuote q = true
          ∧ ∀ c : Quote, current = some c →
              1 < (quotes.filter isValidQuote).length → q.text ≠ c.text) := by
  constructor
  · intro fuel rand fa p quotes current
    rfl
  · intro fuel rand fa quotes current q hne hpick
    have hlen : ¬((quotes.filter isValidQuote).length = 0) := by
      simpa [List.length_eq_zero] using hne
    have hmem := pickLoop_mem (quotes.filter isValidQuote) current rand hne
      fuel 0 q hpick
    refine ⟨?_, (List.mem_filter.mp hmem).2, ?_⟩
    · simp only [preloadNextQuote, hlen, if_false, hpick]
    · intro c hcur hgt
      rw [hcur] at hpick
      exact pickLoop_exit_text (quotes.filter isValidQuote) c rand hgt
        fuel 0 q hpick

/-- C9 witness: a filled slot is untouched, and with the slot empty
the loop over the two-quote list (current text different) stores the
drawn quote with its markup, whose text differs from the current
text. -/
theorem preloadNextQuote_amended_witness :
    preloadNextQuote 3 (fun _ => 0) id (some (⟨"t", "a"⟩, "a"))
      [⟨"u", "b"⟩] (some ⟨"t", "x"⟩) = some (⟨"t", "a"⟩, "a")
    ∧ preloadNextQuote 3 (fun _ => 1) id none [⟨"t", "a"⟩, ⟨"u", "b"⟩]
        (some ⟨"t", "x"⟩) = some (⟨"u", "b"⟩, id "b")
    ∧ (⟨"u", "b"⟩ : Quote).text ≠ ("t" : String) :=
  ⟨preloadNextQuote_amended.1 3 (fun _ => 0) id (⟨"t", "a"⟩, "a")
      [⟨"u", "b"⟩] (some ⟨"t", "x"⟩),
   (preloadNextQuote_amended.2 3 (fun _ => 1) id [⟨"t", "a"⟩, ⟨"u", "b"⟩]
      (some ⟨"t", "x"⟩) ⟨"u", "b"⟩ (by decide) (by decide)).1,
   (preloadNextQuote_amended.2 3 (fun _ => 1) id [⟨"t", "a"⟩, ⟨"u", "b"⟩]
      (some ⟨"t", "x"⟩) ⟨"u", "b"⟩ (by decide) (by decide)).2.2
      ⟨"t", "x"⟩ rfl (by decide)⟩

end Blockquotes
